import Mathlib

/-!
Verification of the software FIFO of `src/HarpXTuned/src/asf/common/services/fifo/fifo.h`.

The FIFO descriptor holds a buffer pointer (modelled as a `List Nat` of element
values), two `uint8_t` indices that range over twice the capacity, the capacity
`size`, and `mask = 2 * size - 1`.  The `uint8_t` arithmetic of the C code is
modelled over `Nat` with explicit `% 256` where the 8-bit wrap matters, and the
C bitwise operations `&` and `>>` are modelled by `&&&` and `>>>` on `Nat`.

The three element widths (`uint8`, `uint16`, `uint32`) share the index
arithmetic verbatim in the C source and differ only in which member of the
buffer union is addressed, i.e. in the truncation modulus applied when an
element (passed as `uint32_t item`) is stored into a slot.  The width-generic
core functions below take that modulus `m` (`2^8`, `2^16`, `2^32`) as a
parameter; the named wrappers instantiate it exactly as the C functions do.
-/

set_option maxRecDepth 100000

namespace HarpX

/-- Error codes of the FIFO driver (`enum` in `fifo.h`). -/
def FIFO_OK : Nat := 0

/-- Attempt to push something in a FIFO that is full. -/
def FIFO_ERROR_OVERFLOW : Nat := 1

/-- Attempt to pull something from a FIFO that is empty. -/
def FIFO_ERROR_UNDERFLOW : Nat := 2

/-- Error condition during FIFO initialization. -/
def FIFO_ERROR : Nat := 3

/-- FIFO descriptor (`struct fifo_desc`).  The buffer union is modelled as the
list of element values currently stored; `read_index`, `write_index`, `size`
and `mask` are the `uint8_t` fields. -/
structure fifo_desc where
  buffer : List Nat
  read_index : Nat
  write_index : Nat
  size : Nat
  mask : Nat
deriving DecidableEq, Repr

/-- C `fifo_get_used_size`: `(write_index - read_index) & mask`.  The
`uint8_t` values are promoted to `int`, subtracted, masked and truncated back
to `uint8_t`; for `write_index, read_index < 256` this equals
`((write_index + 256 - read_index) % 256) &&& mask`. -/
def fifo_get_used_size (f : fifo_desc) : Nat :=
  ((f.write_index + 256 - f.read_index) % 256) &&& f.mask

/-- C `fifo_get_free_size`: `size - fifo_get_used_size(fifo_desc)` with the
`uint8_t` truncation of the subtraction made explicit. -/
def fifo_get_free_size (f : fifo_desc) : Nat :=
  (f.size + 256 - fifo_get_used_size f) % 256

/-- C `fifo_is_empty`: `write_index == read_index`. -/
def fifo_is_empty (f : fifo_desc) : Bool :=
  f.write_index == f.read_index

/-- C `fifo_is_full`: `fifo_get_used_size(fifo_desc) == size`. -/
def fifo_is_full (f : fifo_desc) : Bool :=
  fifo_get_used_size f == f.size

/-- Width-generic body of `fifo_push_uint8_nocheck` / `_uint16_` / `_uint32_`:
store `item` (truncated to the element width `m`) at slot
`write_index & (mask >> 1)`, then advance `write_index = (write_index + 1) & mask`. -/
def fifo_push_nocheck_w (m : Nat) (f : fifo_desc) (item : Nat) : fifo_desc :=
  { f with
    buffer := f.buffer.set (f.write_index &&& (f.mask >>> 1)) (item % m),
    write_index := (f.write_index + 1) &&& f.mask }

/-- Width-generic body of the checked pushes `fifo_push_uint8` / `_uint16` /
`_uint32`: fail with `FIFO_ERROR_OVERFLOW` when full, else store and advance. -/
def fifo_push_w (m : Nat) (f : fifo_desc) (item : Nat) : Nat × fifo_desc :=
  if fifo_is_full f then
    (FIFO_ERROR_OVERFLOW, f)
  else
    (FIFO_OK,
      { f with
        buffer := f.buffer.set (f.write_index &&& (f.mask >>> 1)) (item % m),
        write_index := (f.write_index + 1) &&& f.mask })

/-- Width-generic body of `fifo_pull_uint8_nocheck` / `_uint16_` / `_uint32_`:
read the slot `read_index & (mask >> 1)`, advance
`read_index = (read_index + 1) & mask`, return the element. -/
def fifo_pull_nocheck_w (f : fifo_desc) : Nat × fifo_desc :=
  (f.buffer.getD (f.read_index &&& (f.mask >>> 1)) 0,
    { f with read_index := (f.read_index + 1) &&& f.mask })

/-- Width-generic body of the checked pulls `fifo_pull_uint8` / `_uint16` /
`_uint32`.  The C functions write the element through the out-parameter
`*item`; the memory cell the pointer refers to is modelled by the argument
`item`, and the returned triple is (status, cell value after the call, new
state).  On `FIFO_ERROR_UNDERFLOW` the function returns before touching the
cell. -/
def fifo_pull_w (f : fifo_desc) (item : Nat) : Nat × Nat × fifo_desc :=
  if fifo_is_empty f then
    (FIFO_ERROR_UNDERFLOW, item, f)
  else
    (FIFO_OK,
      f.buffer.getD (f.read_index &&& (f.mask >>> 1)) 0,
      { f with read_index := (f.read_index + 1) &&& f.mask })

/-- C `fifo_push_uint8_nocheck`: stores into `buffer.u8ptr`, truncating the
`uint32_t item` to 8 bits. -/
def fifo_push_uint8_nocheck (f : fifo_desc) (item : Nat) : fifo_desc :=
  fifo_push_nocheck_w (2 ^ 8) f item

/-- C `fifo_push_uint16_nocheck`. -/
def fifo_push_uint16_nocheck (f : fifo_desc) (item : Nat) : fifo_desc :=
  fifo_push_nocheck_w (2 ^ 16) f item

/-- C `fifo_push_uint32_nocheck`. -/
def fifo_push_uint32_nocheck (f : fifo_desc) (item : Nat) : fifo_desc :=
  fifo_push_nocheck_w (2 ^ 32) f item

/-- C `fifo_push_uint8` (checked). -/
def fifo_push_uint8 (f : fifo_desc) (item : Nat) : Nat × fifo_desc :=
  fifo_push_w (2 ^ 8) f item

/-- C `fifo_push_uint16` (checked). -/
def fifo_push_uint16 (f : fifo_desc) (item : Nat) : Nat × fifo_desc :=
  fifo_push_w (2 ^ 16) f item

/-- C `fifo_push_uint32` (checked). -/
def fifo_push_uint32 (f : fifo_desc) (item : Nat) : Nat × fifo_desc :=
  fifo_push_w (2 ^ 32) f item

/-- C `fifo_pull_uint8_nocheck`. -/
def fifo_pull_uint8_nocheck (f : fifo_desc) : Nat × fifo_desc :=
  fifo_pull_nocheck_w f

/-- C `fifo_pull_uint16_nocheck`. -/
def fifo_pull_uint16_nocheck (f : fifo_desc) : Nat × fifo_desc :=
  fifo_pull_nocheck_w f

/-- C `fifo_pull_uint32_nocheck`. -/
def fifo_pull_uint32_nocheck (f : fifo_desc) : Nat × fifo_desc :=
  fifo_pull_nocheck_w f

/-- C `fifo_pull_uint8` (checked, out-parameter modelled as in `fifo_pull_w`). -/
def fifo_pull_uint8 (f : fifo_desc) (item : Nat) : Nat × Nat × fifo_desc :=
  fifo_pull_w f item

/-- C `fifo_pull_uint16` (checked). -/
def fifo_pull_uint16 (f : fifo_desc) (item : Nat) : Nat × Nat × fifo_desc :=
  fifo_pull_w f item

/-- C `fifo_pull_uint32` (checked). -/
def fifo_pull_uint32 (f : fifo_desc) (item : Nat) : Nat × Nat × fifo_desc :=
  fifo_pull_w f item

/-- C `fifo_flush`: `read_index = write_index = 0`. -/
def fifo_flush (f : fifo_desc) : fifo_desc :=
  { f with read_index := 0, write_index := 0 }

/-- Modelled from the spec: the body of `fifo_init` is not part of the source
tree (fifo.h only declares it).  Spec section 4.1: `capacity` must be a power
of two and at most 128, otherwise init fails with `InvalidCapacity`
(`FIFO_ERROR` per the declaration's doc comment); on success it sets
`read_index = write_index = 0`, records the buffer, `capacity` and
`index_mask = 2 * capacity - 1`.  The power-of-two test is the C idiom
`size != 0 && (size & (size - 1)) == 0`. -/
def fifo_init (buffer : List Nat) (size : Nat) : Nat × Option fifo_desc :=
  if size ≠ 0 ∧ size &&& (size - 1) = 0 ∧ size ≤ 128 then
    (FIFO_OK, some ⟨buffer, 0, 0, size, 2 * size - 1⟩)
  else
    (FIFO_ERROR, none)

/-- State of a freshly initialized FIFO of capacity `N` over caller-supplied
backing storage `buf` (what `fifo_init` produces on success). -/
def fifo_fresh (N : Nat) (buf : List Nat) : fifo_desc :=
  ⟨buf, 0, 0, N, 2 * N - 1⟩

/-! ### Arithmetic bridges between the bitwise C operations and modular
arithmetic, valid because `size` is a power of two and `mask = 2 * size - 1`. -/

/-- With a power-of-two capacity, masking with `2 * 2^k - 1` is reduction
modulo `2 * 2^k`. -/
lemma land_double_mask (k x : Nat) : x &&& (2 * 2 ^ k - 1) = x % (2 * 2 ^ k) := by
  have h : 2 * 2 ^ k = 2 ^ (k + 1) := by rw [Nat.pow_succ]; ring
  rw [h, Nat.and_pow_two_sub_one_eq_mod]

/-- `mask >> 1` recovers the buffer-addressing mask `2^k - 1`. -/
lemma half_mask (k : Nat) : (2 * 2 ^ k - 1) >>> 1 = 2 ^ k - 1 := by
  rw [Nat.shiftRight_eq_div_pow]
  have h : 0 < 2 ^ k := Nat.pow_pos (by norm_num)
  have h1 : (2 : Nat) ^ 1 = 2 := by norm_num
  rw [h1]
  omega

/-- Masking with `mask >> 1` is reduction modulo the capacity `2^k`. -/
lemma land_half_mask (k x : Nat) : x &&& ((2 * 2 ^ k - 1) >>> 1) = x % 2 ^ k := by
  rw [half_mask, Nat.and_pow_two_sub_one_eq_mod]

/-- The doubled index range divides 256 as long as `k ≤ 7`, so the implicit
`uint8_t` wrap of the index subtraction is harmless. -/
lemma double_size_dvd_256 (k : Nat) (hk : k ≤ 7) : 2 * 2 ^ k ∣ 256 := by
  have h : 2 * 2 ^ k = 2 ^ (k + 1) := by rw [Nat.pow_succ]; ring
  have h256 : (256 : Nat) = 2 ^ 8 := by norm_num
  rw [h, h256]
  exact Nat.pow_dvd_pow 2 (by omega)

/-- Invariant tying a descriptor to a capacity exponent `k`: the capacity is
`2^k ≤ 128`, the mask is the doubled-range mask, the backing list has exactly
`size` slots, both indices are below `2 * size`, and at most `size` elements
are queued. -/
def fifo_inv (k : Nat) (f : fifo_desc) : Prop :=
  k ≤ 7 ∧ f.size = 2 ^ k ∧ f.mask = 2 * f.size - 1 ∧
  f.buffer.length = f.size ∧ f.read_index < 2 * f.size ∧
  f.write_index < 2 * f.size ∧ fifo_get_used_size f ≤ f.size

instance (k : Nat) (f : fifo_desc) : Decidable (fifo_inv k f) := by
  unfold fifo_inv; infer_instance

/-- Under the invariant's shape hypotheses, the used count computed by the C
expression equals the index difference modulo the doubled capacity. -/
lemma fifo_used_eq_mod (k : Nat) (f : fifo_desc) (hk : k ≤ 7)
    (hsize : f.size = 2 ^ k) (hmask : f.mask = 2 * f.size - 1)
    (hr : f.read_index < 2 * f.size) :
    fifo_get_used_size f =
      (f.write_index + 2 * f.size - f.read_index) % (2 * f.size) := by
  unfold fifo_get_used_size
  rw [hmask, hsize, land_double_mask,
    Nat.mod_mod_of_dvd _ (double_size_dvd_256 k hk)]
  have h7 : k + (7 - k) = 7 := by omega
  have hc : (256 : Nat) = 2 * 2 ^ k * 2 ^ (7 - k) := by
    rw [mul_assoc, ← pow_add, h7]; norm_num
  have hc1 : 1 ≤ 2 ^ (7 - k) := Nat.one_le_two_pow
  have hsplit : 2 * 2 ^ k * 2 ^ (7 - k) =
      2 * 2 ^ k * (2 ^ (7 - k) - 1) + 2 * 2 ^ k := by
    have h2 : 2 ^ (7 - k) = (2 ^ (7 - k) - 1) + 1 := by omega
    calc 2 * 2 ^ k * 2 ^ (7 - k)
        = 2 * 2 ^ k * ((2 ^ (7 - k) - 1) + 1) := by rw [← h2]
      _ = 2 * 2 ^ k * (2 ^ (7 - k) - 1) + 2 * 2 ^ k := by ring
  have hkey : f.write_index + 256 - f.read_index =
      (f.write_index + 2 * 2 ^ k - f.read_index) +
        2 * 2 ^ k * (2 ^ (7 - k) - 1) := by
    rw [hsize] at hr
    omega
  rw [hkey, Nat.add_mul_mod_self_left]

/-- Canonical form of `((r + u) % M + M - r) % M`. -/
lemma mod_diff_formula (M r u : Nat) (hr : r < M) (hu : u < M) :
    ((r + u) % M + M - r) % M = u := by
  rcases Nat.lt_or_ge (r + u) M with h | h
  · rw [Nat.mod_eq_of_lt h]
    have h2 : r + u + M - r = u + M := by omega
    rw [h2, Nat.add_mod_right, Nat.mod_eq_of_lt hu]
  · have h3 : (r + u) % M = r + u - M := by
      rw [Nat.mod_eq_sub_mod h, Nat.mod_eq_of_lt (by omega)]
    rw [h3]
    have h4 : r + u - M + M - r = u := by omega
    rw [h4, Nat.mod_eq_of_lt hu]

/-- The write index is determined by the read index and the used count:
`w = (r + u) % M` where `u = (w + M - r) % M`. -/
lemma write_eq_read_add_used (M r w : Nat) (hr : r < M) (hw : w < M) :
    (r + (w + M - r) % M) % M = w := by
  rcases Nat.lt_or_ge w r with h | h
  swap
  · have h1 : w + M - r = (w - r) + M := by omega
    rw [h1, Nat.add_mod_right]
    have h3 : (w - r) % M = w - r := Nat.mod_eq_of_lt (by omega)
    rw [h3]
    have h2 : r + (w - r) = w := by omega
    rw [h2, Nat.mod_eq_of_lt hw]
  · have h1 : w + M - r < M := by omega
    rw [Nat.mod_eq_of_lt h1]
    have h2 : r + (w + M - r) = w + M := by omega
    rw [h2, Nat.add_mod_right, Nat.mod_eq_of_lt hw]

/-! ### Characterizations of the four checked-operation outcomes. -/

/-- Checked push on a full FIFO: `FIFO_ERROR_OVERFLOW`, state untouched. -/
lemma fifo_push_w_full (m : Nat) (f : fifo_desc) (v : Nat)
    (h : fifo_is_full f = true) :
    fifo_push_w m f v = (FIFO_ERROR_OVERFLOW, f) := by
  unfold fifo_push_w
  rw [h]
  simp

/-- Checked pull on an empty FIFO: `FIFO_ERROR_UNDERFLOW`, state and the
out-parameter cell untouched. -/
lemma fifo_pull_w_empty (f : fifo_desc) (cell : Nat)
    (h : fifo_is_empty f = true) :
    fifo_pull_w f cell = (FIFO_ERROR_UNDERFLOW, cell, f) := by
  unfold fifo_pull_w
  rw [h]
  simp

/-- Checked push on a non-full FIFO, with the bitwise index arithmetic
normalized to modular arithmetic. -/
lemma fifo_push_w_not_full (m k : Nat) (f : fifo_desc) (v : Nat)
    (hsize : f.size = 2 ^ k) (hmask : f.mask = 2 * f.size - 1)
    (hfull : fifo_is_full f = false) :
    fifo_push_w m f v =
      (FIFO_OK,
        { f with
          buffer := f.buffer.set (f.write_index % f.size) (v % m),
          write_index := (f.write_index + 1) % (2 * f.size) }) := by
  have e1 : f.write_index &&& (f.mask >>> 1) = f.write_index % f.size := by
    rw [hmask, hsize, land_half_mask]
  have e2 : (f.write_index + 1) &&& f.mask = (f.write_index + 1) % (2 * f.size) := by
    rw [hmask, hsize, land_double_mask]
  unfold fifo_push_w
  rw [hfull, e1, e2]
  simp

/-- Checked pull on a non-empty FIFO, with the bitwise index arithmetic
normalized to modular arithmetic. -/
lemma fifo_pull_w_not_empty (k : Nat) (f : fifo_desc) (cell : Nat)
    (hsize : f.size = 2 ^ k) (hmask : f.mask = 2 * f.size - 1)
    (hemp : fifo_is_empty f = false) :
    fifo_pull_w f cell =
      (FIFO_OK, f.buffer.getD (f.read_index % f.size) 0,
        { f with read_index := (f.read_index + 1) % (2 * f.size) }) := by
  have e1 : f.read_index &&& (f.mask >>> 1) = f.read_index % f.size := by
    rw [hmask, hsize, land_half_mask]
  have e2 : (f.read_index + 1) &&& f.mask = (f.read_index + 1) % (2 * f.size) := by
    rw [hmask, hsize, land_double_mask]
  unfold fifo_pull_w
  rw [hemp, e1, e2]
  simp

/-- Under the shape hypotheses, `fifo_is_empty` tests exactly "no element is
queued", i.e. the used count is zero. -/
lemma fifo_empty_iff_used_zero (k : Nat) (f : fifo_desc) (hk : k ≤ 7)
    (hsize : f.size = 2 ^ k) (hmask : f.mask = 2 * f.size - 1)
    (hr : f.read_index < 2 * f.size) (hw : f.write_index < 2 * f.size) :
    fifo_is_empty f = true ↔ fifo_get_used_size f = 0 := by
  have hpos : 0 < f.size := by rw [hsize]; exact Nat.pow_pos (by norm_num)
  rw [fifo_used_eq_mod k f hk hsize hmask hr]
  unfold fifo_is_empty
  rw [beq_iff_eq]
  constructor
  · intro h
    rw [h]
    have h2 : f.read_index + 2 * f.size - f.read_index = 2 * f.size := by omega
    rw [h2, Nat.mod_self]
  · intro h
    obtain ⟨t, ht⟩ := Nat.dvd_of_mod_eq_zero h
    rcases t with _ | _ | t
    · simp at ht
      omega
    · omega
    · have h2 : 2 * f.size * (t + 2) = 2 * f.size * t + 2 * (2 * f.size) := by
        ring
      rw [h2] at ht
      have h3 : 0 ≤ 2 * f.size * t := Nat.zero_le _
      generalize 2 * f.size * t = s at ht h3
      omega

/-! ### Abstraction: the queued elements, oldest first. -/

/-- The sequence of queued elements, oldest first: slot `(read_index + i) % size`
for `i` below the used count. -/
def fifo_elems (f : fifo_desc) : List Nat :=
  (List.range (fifo_get_used_size f)).map
    (fun i => f.buffer.getD ((f.read_index + i) % f.size) 0)

/-- `getD` with an in-range index is plain indexing. -/
lemma getD_eq_get (l : List Nat) (n d : Nat) (h : n < l.length) :
    l.getD n d = l[n] := by
  rw [List.getD_eq_getElem?_getD, List.getElem?_eq_getElem h]
  rfl

/-- Full description of a successful checked push: status `FIFO_OK`, the
invariant is preserved, the used count grows by one, and the element sequence
gains `v % m` at the young end. -/
lemma fifo_push_w_spec (m k : Nat) (f : fifo_desc) (v : Nat)
    (hinv : fifo_inv k f) (hfull : fifo_is_full f = false) :
    (fifo_push_w m f v).1 = FIFO_OK ∧
    fifo_inv k (fifo_push_w m f v).2 ∧
    fifo_get_used_size (fifo_push_w m f v).2 = fifo_get_used_size f + 1 ∧
    fifo_elems (fifo_push_w m f v).2 = fifo_elems f ++ [v % m] := by
  obtain ⟨hk, hsize, hmask, hlen, hr, hw, hu⟩ := hinv
  have hpos : 0 < f.size := by rw [hsize]; exact Nat.pow_pos (by norm_num)
  have hMpos : 0 < 2 * f.size := by omega
  have hune : fifo_get_used_size f ≠ f.size := by
    intro h
    rw [fifo_is_full, h, beq_self_eq_true] at hfull
    exact absurd hfull (by simp)
  have hult : fifo_get_used_size f < f.size := lt_of_le_of_ne hu hune
  have hused := fifo_used_eq_mod k f hk hsize hmask hr
  have hwchar : (f.read_index + fifo_get_used_size f) % (2 * f.size) =
      f.write_index := by
    rw [hused]
    exact write_eq_read_add_used (2 * f.size) f.read_index f.write_index hr hw
  rw [fifo_push_w_not_full m k f v hsize hmask hfull]
  set u := fifo_get_used_size f with hudef
  -- the pushed state, with all projections exposed
  set st : fifo_desc :=
    { f with
      buffer := f.buffer.set (f.write_index % f.size) (v % m),
      write_index := (f.write_index + 1) % (2 * f.size) } with hst
  have hst_size : st.size = f.size := rfl
  have hst_mask : st.mask = f.mask := rfl
  have hst_r : st.read_index = f.read_index := rfl
  have hst_w : st.write_index = (f.write_index + 1) % (2 * f.size) := rfl
  have hst_buf : st.buffer = f.buffer.set (f.write_index % f.size) (v % m) := rfl
  have hst_len : st.buffer.length = f.size := by
    rw [hst_buf, List.length_set, hlen]
  -- the new used count
  have hwinc : (f.write_index + 1) % (2 * f.size) =
      (f.read_index + (u + 1)) % (2 * f.size) := by
    rw [← hwchar, Nat.mod_add_mod, ← Nat.add_assoc]
  have hst_used : fifo_get_used_size st = u + 1 := by
    rw [fifo_used_eq_mod k st hk (by rw [hst_size, hsize])
      (by rw [hst_mask, hst_size]; exact hmask)
      (by rw [hst_r, hst_size]; exact hr)]
    rw [hst_w, hst_r, hst_size, hwinc]
    exact mod_diff_formula (2 * f.size) f.read_index (u + 1) hr (by omega)
  refine ⟨rfl, ⟨hk, by rw [hst_size, hsize], by rw [hst_mask, hst_size]; exact hmask,
    by rw [hst_len, hst_size], by rw [hst_r, hst_size]; exact hr,
    by rw [hst_w, hst_size]; exact Nat.mod_lt _ hMpos,
    by rw [hst_used, hst_size]; omega⟩, hst_used, ?_⟩
  -- the element sequence
  have hNdvd : f.size ∣ 2 * f.size := ⟨2, by ring⟩
  have hwN : f.write_index % f.size = (f.read_index + u) % f.size := by
    rw [← hwchar, Nat.mod_mod_of_dvd _ hNdvd]
  unfold fifo_elems
  rw [hst_used, hst_r, hst_size, hst_buf, hudef]
  rw [List.range_succ, List.map_append]
  congr 1
  · apply List.map_congr_left
    intro i hi
    rw [List.mem_range] at hi
    have hbound : (f.read_index + i) % f.size < f.buffer.length := by
      rw [hlen]; exact Nat.mod_lt _ hpos
    have hbound2 : (f.read_index + i) % f.size <
        (f.buffer.set (f.write_index % f.size) (v % m)).length := by
      rw [List.length_set]; exact hbound
    have hne : f.write_index % f.size ≠ (f.read_index + i) % f.size := by
      rw [hwN]
      intro hcontra
      have hmodeq : i ≡ u [MOD f.size] :=
        Nat.ModEq.add_left_cancel' f.read_index
          (Nat.ModEq.symm hcontra)
      have : i % f.size = u % f.size := hmodeq
      rw [Nat.mod_eq_of_lt (by omega), Nat.mod_eq_of_lt hult] at this
      omega
    rw [getD_eq_get _ _ _ hbound2, getD_eq_get _ _ _ hbound]
    exact List.getElem_set_ne hne hbound2
  · have hidx : (f.read_index + u) % f.size = f.write_index % f.size := hwN.symm
    have hbound : f.write_index % f.size <
        (f.buffer.set (f.write_index % f.size) (v % m)).length := by
      rw [List.length_set, hlen]; exact Nat.mod_lt _ hpos
    simp only [List.map_cons, List.map_nil]
    rw [hidx, getD_eq_get _ _ _ hbound]
    rw [List.getElem_set_self hbound]

/-- Full description of a successful checked pull: status `FIFO_OK`, the
element sequence of the pre-state is the returned element followed by the
element sequence of the post-state, the invariant is preserved, and the used
count shrinks by one. -/
lemma fifo_pull_w_spec (k : Nat) (f : fifo_desc) (cell : Nat)
    (hinv : fifo_inv k f) (hemp : fifo_is_empty f = false) :
    (fifo_pull_w f cell).1 = FIFO_OK ∧
    fifo_elems f = (fifo_pull_w f cell).2.1 :: fifo_elems (fifo_pull_w f cell).2.2 ∧
    fifo_inv k (fifo_pull_w f cell).2.2 ∧
    fifo_get_used_size (fifo_pull_w f cell).2.2 = fifo_get_used_size f - 1 := by
  obtain ⟨hk, hsize, hmask, hlen, hr, hw, hu⟩ := hinv
  have hpos : 0 < f.size := by rw [hsize]; exact Nat.pow_pos (by norm_num)
  have hMpos : 0 < 2 * f.size := by omega
  have hupos : 0 < fifo_get_used_size f := by
    rcases Nat.eq_zero_or_pos (fifo_get_used_size f) with h0 | h0
    · have := (fifo_empty_iff_used_zero k f hk hsize hmask hr hw).2 h0
      rw [this] at hemp
      exact absurd hemp (by simp)
    · exact h0
  have hused := fifo_used_eq_mod k f hk hsize hmask hr
  have hwchar : (f.read_index + fifo_get_used_size f) % (2 * f.size) =
      f.write_index := by
    rw [hused]
    exact write_eq_read_add_used (2 * f.size) f.read_index f.write_index hr hw
  rw [fifo_pull_w_not_empty k f cell hsize hmask hemp]
  set u := fifo_get_used_size f with hudef
  set st : fifo_desc :=
    { f with read_index := (f.read_index + 1) % (2 * f.size) } with hst
  have hst_size : st.size = f.size := rfl
  have hst_mask : st.mask = f.mask := rfl
  have hst_r : st.read_index = (f.read_index + 1) % (2 * f.size) := rfl
  have hst_w : st.write_index = f.write_index := rfl
  have hst_buf : st.buffer = f.buffer := rfl
  have hst_rlt : st.read_index < 2 * f.size := by
    rw [hst_r]; exact Nat.mod_lt _ hMpos
  have hwdec : f.write_index =
      ((f.read_index + 1) % (2 * f.size) + (u - 1)) % (2 * f.size) := by
    rw [Nat.mod_add_mod, ← hwchar]
    congr 1
    omega
  have hst_used : fifo_get_used_size st = u - 1 := by
    rw [fifo_used_eq_mod k st hk (by rw [hst_size, hsize])
      (by rw [hst_mask, hst_size]; exact hmask)
      (by rw [hst_size]; exact hst_rlt)]
    rw [hst_w, hst_r, hst_size, hwdec]
    exact mod_diff_formula (2 * f.size) ((f.read_index + 1) % (2 * f.size))
      (u - 1) (Nat.mod_lt _ hMpos) (by omega)
  have hNdvd : f.size ∣ 2 * f.size := ⟨2, by ring⟩
  refine ⟨rfl, ?_, ⟨hk, by rw [hst_size, hsize],
    by rw [hst_mask, hst_size]; exact hmask,
    by rw [hst_buf, hst_size, hlen],
    by rw [hst_size]; exact hst_rlt,
    by rw [hst_w, hst_size]; exact hw,
    by rw [hst_used, hst_size]; omega⟩, hst_used⟩
  -- pre-state elements = pulled item :: post-state elements
  unfold fifo_elems
  rw [hst_used, hst_r, hst_size, hst_buf, ← hudef]
  have hsplit : u = (u - 1) + 1 := by omega
  rw [hsplit, List.range_succ_eq_map, List.map_cons, List.map_map]
  simp only [Nat.add_zero]
  congr 1
  apply List.map_congr_left
  intro i hi
  simp only [Function.comp]
  have hidx : ((f.read_index + 1) % (2 * f.size) + i) % f.size =
      (f.read_index + Nat.succ i) % f.size := by
    rw [Nat.add_mod, Nat.mod_mod_of_dvd _ hNdvd, ← Nat.add_mod]
    congr 1
    omega
  rw [hidx]

/-! ### Interleaved checked push/pop sequences and the queue specification. -/

/-- A checked operation on the FIFO: push a value, or pop. -/
inductive FifoOp where
  | push : Nat → FifoOp
  | pop : FifoOp
deriving DecidableEq, Repr

/-- One checked operation on the concrete FIFO of element width `m`.  The
output pairs the returned status with the popped element, if any. -/
def fifo_step (m : Nat) (f : fifo_desc) : FifoOp → (Nat × Option Nat) × fifo_desc
  | FifoOp.push v => (((fifo_push_w m f v).1, none), (fifo_push_w m f v).2)
  | FifoOp.pop =>
      (((fifo_pull_w f 0).1,
        if (fifo_pull_w f 0).1 = FIFO_OK then some (fifo_pull_w f 0).2.1 else none),
        (fifo_pull_w f 0).2.2)

/-- Run a sequence of checked operations on the concrete FIFO, collecting the
outputs. -/
def fifo_run (m : Nat) (f : fifo_desc) : List FifoOp → List (Nat × Option Nat) × fifo_desc
  | [] => ([], f)
  | op :: ops =>
      ((fifo_step m f op).1 :: (fifo_run m (fifo_step m f op).2 ops).1,
        (fifo_run m (fifo_step m f op).2 ops).2)

/-- Modelled from the spec (queue semantics of section 8): one operation on a
textbook bounded queue of capacity `N` holding width-`m` elements, oldest
element at the head.  A push onto a full queue fails with overflow and changes
nothing; a pop of an empty queue fails with underflow; otherwise a push
appends at the tail and a pop removes and returns the head (the oldest
not-yet-popped element). -/
def queue_step (m N : Nat) (q : List Nat) : FifoOp → (Nat × Option Nat) × List Nat
  | FifoOp.push v =>
      if q.length = N then ((FIFO_ERROR_OVERFLOW, none), q)
      else ((FIFO_OK, none), q ++ [v % m])
  | FifoOp.pop =>
      match q with
      | [] => ((FIFO_ERROR_UNDERFLOW, none), [])
      | x :: xs => ((FIFO_OK, some x), xs)

/-- Run a sequence of operations on the specification queue. -/
def queue_run (m N : Nat) (q : List Nat) : List FifoOp → List (Nat × Option Nat) × List Nat
  | [] => ([], q)
  | op :: ops =>
      ((queue_step m N q op).1 :: (queue_run m N (queue_step m N q op).2 ops).1,
        (queue_run m N (queue_step m N q op).2 ops).2)

/-- The element sequence has exactly `used` entries. -/
lemma fifo_elems_length (f : fifo_desc) :
    (fifo_elems f).length = fifo_get_used_size f := by
  unfold fifo_elems
  rw [List.length_map, List.length_range]

/-- One-step simulation: a concrete checked operation and the corresponding
queue operation produce the same output, and the abstraction relation
(`fifo_elems`) is preserved. -/
lemma fifo_step_sim (m k : Nat) (f : fifo_desc) (op : FifoOp)
    (hinv : fifo_inv k f) :
    (fifo_step m f op).1 = (queue_step m f.size (fifo_elems f) op).1 ∧
    fifo_inv k (fifo_step m f op).2 ∧
    fifo_elems (fifo_step m f op).2 = (queue_step m f.size (fifo_elems f) op).2 := by
  obtain ⟨hk, hsize, hmask, hlen, hr, hw, hu⟩ := hinv
  have hinv2 : fifo_inv k f := ⟨hk, hsize, hmask, hlen, hr, hw, hu⟩
  cases op with
  | push v =>
      rcases Bool.eq_false_or_eq_true (fifo_is_full f) with hfull | hfull
      · -- full: both machines report overflow and stand still
        have hpush := fifo_push_w_full m f v hfull
        have hused : fifo_get_used_size f = f.size := by
          rw [fifo_is_full, beq_iff_eq] at hfull
          exact hfull
        have hqlen : (fifo_elems f).length = f.size := by
          rw [fifo_elems_length, hused]
        refine ⟨?_, ?_, ?_⟩
        · simp [fifo_step, queue_step, hpush, hqlen]
        · simpa [fifo_step, hpush] using hinv2
        · simp [fifo_step, queue_step, hpush, hqlen]
      · -- room available: both machines succeed
        have hspec := fifo_push_w_spec m k f v hinv2 hfull
        have hqlen : ¬((fifo_elems f).length = f.size) := by
          rw [fifo_elems_length]
          intro h
          rw [fifo_is_full, h, beq_self_eq_true] at hfull
          exact absurd hfull (by simp)
        refine ⟨?_, hspec.2.1, ?_⟩
        · simp [fifo_step, queue_step, hspec.1, if_neg hqlen]
        · simp [fifo_step, queue_step, if_neg hqlen, hspec.2.2.2]
  | pop =>
      rcases Bool.eq_false_or_eq_true (fifo_is_empty f) with hemp | hemp
      · -- empty: both machines report underflow
        have hpull := fifo_pull_w_empty f 0 hemp
        have hused : fifo_get_used_size f = 0 :=
          (fifo_empty_iff_used_zero k f hk hsize hmask hr hw).1 hemp
        have hnil : fifo_elems f = [] := by
          unfold fifo_elems
          rw [hused]
          rfl
        refine ⟨?_, ?_, ?_⟩
        · simp [fifo_step, queue_step, hpull, hnil, FIFO_ERROR_UNDERFLOW, FIFO_OK]
        · simpa [fifo_step, hpull] using hinv2
        · simp [fifo_step, queue_step, hpull, hnil]
      · -- non-empty: both machines pop the oldest element
        have hspec := fifo_pull_w_spec k f 0 hinv2 hemp
        have hcons := hspec.2.1
        refine ⟨?_, hspec.2.2.1, ?_⟩
        · simp [fifo_step, queue_step, hcons, hspec.1]
        · simp [fifo_step, queue_step, hcons]

/-- Run-level simulation: over any sequence of checked operations, the
concrete FIFO and the specification queue produce identical output traces,
the invariant holds at the end, and the final states are still related. -/
lemma fifo_run_sim (m k : Nat) (f : fifo_desc) (ops : List FifoOp)
    (hinv : fifo_inv k f) :
    (fifo_run m f ops).1 = (queue_run m f.size (fifo_elems f) ops).1 ∧
    fifo_inv k (fifo_run m f ops).2 ∧
    fifo_elems (fifo_run m f ops).2 = (queue_run m f.size (fifo_elems f) ops).2 := by
  induction ops generalizing f with
  | nil => exact ⟨rfl, hinv, rfl⟩
  | cons op ops ih =>
      have hstep := fifo_step_sim m k f op hinv
      have hsize_step : (fifo_step m f op).2.size = f.size := by
        cases op with
        | push v =>
            simp only [fifo_step]
            unfold fifo_push_w
            rcases Bool.eq_false_or_eq_true (fifo_is_full f) with h | h <;>
              simp [h]
        | pop =>
            simp only [fifo_step]
            unfold fifo_pull_w
            rcases Bool.eq_false_or_eq_true (fifo_is_empty f) with h | h <;>
              simp [h]
      have ihs := ih (fifo_step m f op).2 hstep.2.1
      simp only [fifo_run, queue_run]
      refine ⟨?_, ?_, ?_⟩
      · rw [hstep.1]
        rw [ihs.1, hsize_step, hstep.2.2]
      · exact ihs.2.1
      · rw [ihs.2.2, hsize_step, hstep.2.2]

/-- The freshly initialized FIFO satisfies the invariant and abstracts to the
empty queue. -/
lemma fifo_fresh_inv (k : Nat) (buf : List Nat) (hk : k ≤ 7)
    (hbuf : buf.length = 2 ^ k) :
    fifo_inv k (fifo_fresh (2 ^ k) buf) ∧ fifo_elems (fifo_fresh (2 ^ k) buf) = [] := by
  have hused : fifo_get_used_size (fifo_fresh (2 ^ k) buf) = 0 := by
    unfold fifo_get_used_size fifo_fresh
    simp
  constructor
  · refine ⟨hk, rfl, rfl, hbuf, ?_, ?_, ?_⟩
    · show 0 < 2 * 2 ^ k
      have h2 : 0 < 2 ^ k := Nat.pow_pos (by norm_num)
      omega
    · show 0 < 2 * 2 ^ k
      have h2 : 0 < 2 ^ k := Nat.pow_pos (by norm_num)
      omega
    · rw [hused]
      exact Nat.zero_le _
  · unfold fifo_elems
    rw [hused]
    rfl

/-! ### Iterated checked pushes and pops (for the full-capacity property). -/

/-- Unfolding wrappers to the width-generic cores. -/
lemma fifo_push_uint8_eq (f : fifo_desc) (v : Nat) :
    fifo_push_uint8 f v = fifo_push_w (2 ^ 8) f v := rfl

/-- Unfolding the checked uint8 pull to the width-generic core. -/
lemma fifo_pull_uint8_eq (f : fifo_desc) (cell : Nat) :
    fifo_pull_uint8 f cell = fifo_pull_w f cell := rfl

/-- State after `n` checked uint8 pushes of the values `0, 1, ..., n - 1`. -/
def push_iter (f : fifo_desc) : Nat → fifo_desc
  | 0 => f
  | n + 1 => (fifo_push_uint8 (push_iter f n) n).2

/-- State after `n` checked uint8 pulls (out-parameter cell `0`). -/
def pop_iter (f : fifo_desc) : Nat → fifo_desc
  | 0 => f
  | n + 1 => (fifo_pull_uint8 (pop_iter f n) 0).2.2

/-- Boolean fullness flag translated through the used count. -/
lemma fifo_is_full_eq_false_of_ne (f : fifo_desc)
    (h : fifo_get_used_size f ≠ f.size) : fifo_is_full f = false := by
  rw [fifo_is_full]
  exact beq_eq_false_iff_ne.2 h

/-- Boolean emptiness flag: false whenever some element is queued. -/
lemma fifo_is_empty_eq_false_of_pos (k : Nat) (f : fifo_desc) (hk : k ≤ 7)
    (hsize : f.size = 2 ^ k) (hmask : f.mask = 2 * f.size - 1)
    (hr : f.read_index < 2 * f.size) (hw : f.write_index < 2 * f.size)
    (h : fifo_get_used_size f ≠ 0) : fifo_is_empty f = false := by
  rcases Bool.eq_false_or_eq_true (fifo_is_empty f) with he | he
  · exact absurd ((fifo_empty_iff_used_zero k f hk hsize hmask hr hw).1 he) h
  · exact he

/-- Starting empty, the first `size` checked pushes keep the invariant and
the used count equals the number of pushes performed. -/
lemma push_iter_spec (k : Nat) (f : fifo_desc) (hinv : fifo_inv k f)
    (h0 : fifo_get_used_size f = 0) :
    ∀ i, i ≤ f.size → fifo_inv k (push_iter f i) ∧
      fifo_get_used_size (push_iter f i) = i ∧ (push_iter f i).size = f.size := by
  intro i
  induction i with
  | zero => exact fun _ => ⟨hinv, h0, rfl⟩
  | succ n ih =>
      intro hle
      obtain ⟨ihinv, ihused, ihsize⟩ := ih (by omega)
      have hfull : fifo_is_full (push_iter f n) = false := by
        apply fifo_is_full_eq_false_of_ne
        rw [ihused, ihsize]
        omega
      have hspec := fifo_push_w_spec (2 ^ 8) k (push_iter f n) n ihinv hfull
      have hstep : push_iter f (n + 1) = (fifo_push_w (2 ^ 8) (push_iter f n) n).2 := by
        show (fifo_push_uint8 (push_iter f n) n).2 = _
        rw [fifo_push_uint8_eq]
      refine ⟨by rw [hstep]; exact hspec.2.1, by rw [hstep, hspec.2.2.1, ihused], ?_⟩
      rw [hstep, ← ihsize]
      unfold fifo_push_w
      rcases Bool.eq_false_or_eq_true (fifo_is_full (push_iter f n)) with h | h <;>
        simp [h]

/-- Starting with `u0` queued elements, the first `u0` checked pulls keep the
invariant and decrement the used count one by one. -/
lemma pop_iter_spec (k : Nat) (g : fifo_desc) (u0 : Nat) (hinv : fifo_inv k g)
    (hu0 : fifo_get_used_size g = u0) :
    ∀ j, j ≤ u0 → fifo_inv k (pop_iter g j) ∧
      fifo_get_used_size (pop_iter g j) = u0 - j ∧ (pop_iter g j).size = g.size := by
  intro j
  induction j with
  | zero => exact fun _ => ⟨hinv, hu0, rfl⟩
  | succ n ih =>
      intro hle
      obtain ⟨ihinv, ihused, ihsize⟩ := ih (by omega)
      obtain ⟨hk, hsize, hmask, hlen, hr, hw, hu⟩ := ihinv
      have ihinv2 : fifo_inv k (pop_iter g n) := ⟨hk, hsize, hmask, hlen, hr, hw, hu⟩
      have hemp : fifo_is_empty (pop_iter g n) = false := by
        apply fifo_is_empty_eq_false_of_pos k _ hk hsize hmask hr hw
        rw [ihused]
        omega
      have hspec := fifo_pull_w_spec k (pop_iter g n) 0 ihinv2 hemp
      have hstep : pop_iter g (n + 1) = (fifo_pull_w (pop_iter g n) 0).2.2 := by
        show (fifo_pull_uint8 (pop_iter g n) 0).2.2 = _
        rw [fifo_pull_uint8_eq]
      refine ⟨by rw [hstep]; exact hspec.2.2.1,
        by rw [hstep, hspec.2.2.2, ihused]; omega, ?_⟩
      rw [hstep, ← ihsize]
      unfold fifo_pull_w
      rcases Bool.eq_false_or_eq_true (fifo_is_empty (pop_iter g n)) with h | h <;>
        simp [h]

/-! ### Remaining helper lemmas. -/

/-- Powers of two up to exponent 7 stay within the `uint8`-imposed bound. -/
lemma pow_le_128 (k : Nat) (hk : k ≤ 7) : 2 ^ k ≤ 128 := by
  calc 2 ^ k ≤ 2 ^ 7 := Nat.pow_le_pow_right (by norm_num) hk
    _ = 128 := by norm_num

/-- Used plus free slots account for the whole capacity. -/
lemma fifo_used_add_free (k : Nat) (f : fifo_desc) (hinv : fifo_inv k f) :
    fifo_get_used_size f + fifo_get_free_size f = f.size := by
  obtain ⟨hk, hsize, hmask, hlen, hr, hw, hu⟩ := hinv
  have h128 : f.size ≤ 128 := by rw [hsize]; exact pow_le_128 k hk
  unfold fifo_get_free_size
  have h1 : f.size + 256 - fifo_get_used_size f =
      (f.size - fifo_get_used_size f) + 256 := by omega
  rw [h1, Nat.add_mod_right, Nat.mod_eq_of_lt (by omega)]
  omega

/-- On a non-full FIFO the checked push body coincides with the unchecked
push. -/
lemma push_w_eq_nocheck (m : Nat) (f : fifo_desc) (v : Nat)
    (h : fifo_is_full f = false) :
    fifo_push_w m f v = (FIFO_OK, fifo_push_nocheck_w m f v) := by
  unfold fifo_push_w fifo_push_nocheck_w
  rw [h]
  simp

/-- On a non-empty FIFO the checked pull body coincides with the unchecked
pull. -/
lemma pull_w_eq_nocheck (f : fifo_desc) (cell : Nat)
    (h : fifo_is_empty f = false) :
    fifo_pull_w f cell =
      (FIFO_OK, (fifo_pull_nocheck_w f).1, (fifo_pull_nocheck_w f).2) := by
  unfold fifo_pull_w fifo_pull_nocheck_w
  rw [h]
  simp

/-- The C power-of-two test used by `fifo_init` accepts exactly the powers of
two `2^j` with `j ≤ 7`, i.e. `{1, 2, 4, ..., 128}`. -/
lemma pow2_cond_iff (size : Nat) :
    (size ≠ 0 ∧ size &&& (size - 1) = 0 ∧ size ≤ 128) ↔
      (∃ j < 8, size = 2 ^ j) := by
  constructor
  · rintro ⟨h0, hbit, h128⟩
    have hall : ∀ s, s < 129 →
        (s ≠ 0 ∧ s &&& (s - 1) = 0 → ∃ j < 8, s = 2 ^ j) := by decide
    exact hall size (by omega) ⟨h0, hbit⟩
  · rintro ⟨j, hj, rfl⟩
    refine ⟨(Nat.pow_pos (by norm_num)).ne', ?_, ?_⟩
    · have hall : ∀ j, j < 8 → 2 ^ j &&& (2 ^ j - 1) = 0 := by decide
      exact hall j hj
    · exact pow_le_128 j (by omega)

/-! ### The claims. -/

/-- C1: for every capacity `N = 2^k ≤ 128`, a freshly initialized FIFO
accepts exactly `N` checked pushes, each returning `FIFO_OK` with
`fifo_is_full` still false beforehand; after the `N`-th push `fifo_is_full`
is true and the `(N+1)`-th checked push fails with `FIFO_ERROR_OVERFLOW`;
all `N` elements are then retrievable by checked pops, each returning
`FIFO_OK` with `fifo_is_empty` still false beforehand; after `N` pops
`fifo_is_empty` is true and the next checked pop fails with
`FIFO_ERROR_UNDERFLOW`.  In particular the double-index scheme achieves 100%
fill at `N = 128` (`k = 7`). -/
theorem fifo_full_capacity_cycle (k : Nat) (buf : List Nat)
    (hk : k ≤ 7) (hbuf : buf.length = 2 ^ k) :
    (∀ i, i < 2 ^ k →
      fifo_is_full (push_iter (fifo_fresh (2 ^ k) buf) i) = false ∧
      (fifo_push_uint8 (push_iter (fifo_fresh (2 ^ k) buf) i) i).1 = FIFO_OK) ∧
    fifo_is_full (push_iter (fifo_fresh (2 ^ k) buf) (2 ^ k)) = true ∧
    (fifo_push_uint8 (push_iter (fifo_fresh (2 ^ k) buf) (2 ^ k)) 0).1 =
      FIFO_ERROR_OVERFLOW ∧
    (∀ j, j < 2 ^ k →
      fifo_is_empty (pop_iter (push_iter (fifo_fresh (2 ^ k) buf) (2 ^ k)) j) = false ∧
      (fifo_pull_uint8 (pop_iter (push_iter (fifo_fresh (2 ^ k) buf) (2 ^ k)) j) 0).1 =
        FIFO_OK) ∧
    fifo_is_empty (pop_iter (push_iter (fifo_fresh (2 ^ k) buf) (2 ^ k)) (2 ^ k)) = true ∧
    (fifo_pull_uint8 (pop_iter (push_iter (fifo_fresh (2 ^ k) buf) (2 ^ k)) (2 ^ k)) 0).1 =
      FIFO_ERROR_UNDERFLOW := by
  obtain ⟨hinv0, helems0⟩ := fifo_fresh_inv k buf hk hbuf
  have h0 : fifo_get_used_size (fifo_fresh (2 ^ k) buf) = 0 := by
    rw [← fifo_elems_length, helems0]
    rfl
  have hNpos : 0 < 2 ^ k := Nat.pow_pos (by norm_num)
  have hps := push_iter_spec k (fifo_fresh (2 ^ k) buf) hinv0 h0
  obtain ⟨hNe, hNu, hNs⟩ := hps (2 ^ k) le_rfl
  have hNsize : (push_iter (fifo_fresh (2 ^ k) buf) (2 ^ k)).size = 2 ^ k := hNs
  have hfullN : fifo_is_full (push_iter (fifo_fresh (2 ^ k) buf) (2 ^ k)) = true := by
    rw [fifo_is_full, hNu, hNsize]
    exact beq_self_eq_true _
  have hpops := pop_iter_spec k (push_iter (fifo_fresh (2 ^ k) buf) (2 ^ k))
    (2 ^ k) hNe hNu
  obtain ⟨hPe, hPu, hPs⟩ := hpops (2 ^ k) le_rfl
  have hPu0 : fifo_get_used_size
      (pop_iter (push_iter (fifo_fresh (2 ^ k) buf) (2 ^ k)) (2 ^ k)) = 0 := by
    rw [hPu]
    omega
  obtain ⟨hk4, hsize4, hmask4, hlen4, hr4, hw4, hu4⟩ := hPe
  have hempN : fifo_is_empty
      (pop_iter (push_iter (fifo_fresh (2 ^ k) buf) (2 ^ k)) (2 ^ k)) = true :=
    (fifo_empty_iff_used_zero k _ hk4 hsize4 hmask4 hr4 hw4).2 hPu0
  refine ⟨?_, hfullN, ?_, ?_, hempN, ?_⟩
  · intro i hi
    obtain ⟨hie, hiu, his⟩ := hps i (by omega)
    have hfull : fifo_is_full (push_iter (fifo_fresh (2 ^ k) buf) i) = false := by
      apply fifo_is_full_eq_false_of_ne
      rw [hiu, his]
      show i ≠ 2 ^ k
      omega
    refine ⟨hfull, ?_⟩
    rw [fifo_push_uint8_eq]
    exact (fifo_push_w_spec (2 ^ 8) k _ i hie hfull).1
  · rw [fifo_push_uint8_eq, fifo_push_w_full (2 ^ 8) _ 0 hfullN]
  · intro j hj
    obtain ⟨hje, hju, hjs⟩ := hpops j (by omega)
    obtain ⟨hk3, hsize3, hmask3, hlen3, hr3, hw3, hu3⟩ := hje
    have hje2 : fifo_inv k (pop_iter (push_iter (fifo_fresh (2 ^ k) buf) (2 ^ k)) j) :=
      ⟨hk3, hsize3, hmask3, hlen3, hr3, hw3, hu3⟩
    have hemp : fifo_is_empty
        (pop_iter (push_iter (fifo_fresh (2 ^ k) buf) (2 ^ k)) j) = false := by
      apply fifo_is_empty_eq_false_of_pos k _ hk3 hsize3 hmask3 hr3 hw3
      rw [hju]
      omega
    refine ⟨hemp, ?_⟩
    rw [fifo_pull_uint8_eq]
    exact (fifo_pull_w_spec k _ 0 hje2 hemp).1
  · rw [fifo_pull_uint8_eq, fifo_pull_w_empty _ 0 hempN]

/-- Witness for C1 at the maximum capacity `N = 128`. -/
theorem fifo_full_capacity_cycle_witness :
    7 ≤ 7 ∧ (List.replicate 128 (0 : Nat)).length = 2 ^ 7 ∧
    fifo_is_full (push_iter (fifo_fresh (2 ^ 7) (List.replicate 128 0)) (2 ^ 7)) = true ∧
    fifo_is_empty (pop_iter (push_iter (fifo_fresh (2 ^ 7) (List.replicate 128 0)) (2 ^ 7))
      (2 ^ 7)) = true :=
  ⟨by decide, by decide,
    (fifo_full_capacity_cycle 7 (List.replicate 128 0) (by decide) (by decide)).2.1,
    (fifo_full_capacity_cycle 7 (List.replicate 128 0) (by decide) (by decide)).2.2.2.2.1⟩

/-- C2: for every supported element width and every interleaved sequence of
checked pushes and pops from a freshly initialized FIFO, the FIFO produces
exactly the outputs of a textbook bounded queue: every successful pop returns
the oldest not-yet-popped element, and in particular pushing `v` into a
non-full FIFO and then popping yields `v` (as a width-`m` element). -/
theorem fifo_queue_semantics (m k : Nat) (buf : List Nat) (ops : List FifoOp)
    (hm : m = 2 ^ 8 ∨ m = 2 ^ 16 ∨ m = 2 ^ 32) (hk : k ≤ 7)
    (hbuf : buf.length = 2 ^ k) :
    (fifo_run m (fifo_fresh (2 ^ k) buf) ops).1 = (queue_run m (2 ^ k) [] ops).1 := by
  obtain ⟨hinv0, helems0⟩ := fifo_fresh_inv k buf hk hbuf
  have h := (fifo_run_sim m k (fifo_fresh (2 ^ k) buf) ops hinv0).1
  rw [h, helems0]
  rfl

/-- Witness for C2: width 8, capacity 4, pushes of 7 and 9 followed by three
pops. -/
theorem fifo_queue_semantics_witness :
    ((2 : Nat) ^ 8 = 2 ^ 8 ∨ (2 : Nat) ^ 8 = 2 ^ 16 ∨ (2 : Nat) ^ 8 = 2 ^ 32) ∧
    2 ≤ 7 ∧ ([0, 0, 0, 0] : List Nat).length = 2 ^ 2 ∧
    (fifo_run (2 ^ 8) (fifo_fresh (2 ^ 2) [0, 0, 0, 0])
        [FifoOp.push 7, FifoOp.push 9, FifoOp.pop, FifoOp.pop, FifoOp.pop]).1 =
      (queue_run (2 ^ 8) (2 ^ 2) []
        [FifoOp.push 7, FifoOp.push 9, FifoOp.pop, FifoOp.pop, FifoOp.pop]).1 :=
  ⟨Or.inl rfl, by decide, by decide,
    fifo_queue_semantics (2 ^ 8) 2 [0, 0, 0, 0]
      [FifoOp.push 7, FifoOp.push 9, FifoOp.pop, FifoOp.pop, FifoOp.pop]
      (Or.inl rfl) (by decide) (by decide)⟩

/-- C3: after any sequence of checked pushes and pops from a freshly
initialized FIFO of capacity `2^k`, the used count equals
`(write_index - read_index) mod (2 * size)`, lies in `[0, size]`, and
used plus free is the capacity. -/
theorem fifo_used_free_invariant (m k : Nat) (buf : List Nat) (ops : List FifoOp)
    (hm : m = 2 ^ 8 ∨ m = 2 ^ 16 ∨ m = 2 ^ 32) (hk : k ≤ 7)
    (hbuf : buf.length = 2 ^ k) :
    fifo_get_used_size (fifo_run m (fifo_fresh (2 ^ k) buf) ops).2 =
      ((fifo_run m (fifo_fresh (2 ^ k) buf) ops).2.write_index +
        2 * (fifo_run m (fifo_fresh (2 ^ k) buf) ops).2.size -
        (fifo_run m (fifo_fresh (2 ^ k) buf) ops).2.read_index) %
        (2 * (fifo_run m (fifo_fresh (2 ^ k) buf) ops).2.size) ∧
    fifo_get_used_size (fifo_run m (fifo_fresh (2 ^ k) buf) ops).2 ≤
      (fifo_run m (fifo_fresh (2 ^ k) buf) ops).2.size ∧
    fifo_get_used_size (fifo_run m (fifo_fresh (2 ^ k) buf) ops).2 +
      fifo_get_free_size (fifo_run m (fifo_fresh (2 ^ k) buf) ops).2 =
      (fifo_run m (fifo_fresh (2 ^ k) buf) ops).2.size := by
  obtain ⟨hinv0, helems0⟩ := fifo_fresh_inv k buf hk hbuf
  have hinv := (fifo_run_sim m k (fifo_fresh (2 ^ k) buf) ops hinv0).2.1
  obtain ⟨hk2, hsize2, hmask2, hlen2, hr2, hw2, hu2⟩ := hinv
  refine ⟨fifo_used_eq_mod k _ hk2 hsize2 hmask2 hr2, hu2, ?_⟩
  exact fifo_used_add_free k _ ⟨hk2, hsize2, hmask2, hlen2, hr2, hw2, hu2⟩

/-- Witness for C3: width 8, capacity 1, a single push. -/
theorem fifo_used_free_invariant_witness :
    ((2 : Nat) ^ 8 = 2 ^ 8 ∨ (2 : Nat) ^ 8 = 2 ^ 16 ∨ (2 : Nat) ^ 8 = 2 ^ 32) ∧
    0 ≤ 7 ∧ ([5] : List Nat).length = 2 ^ 0 ∧
    fifo_get_used_size (fifo_run (2 ^ 8) (fifo_fresh (2 ^ 0) [5]) [FifoOp.push 3]).2 +
      fifo_get_free_size (fifo_run (2 ^ 8) (fifo_fresh (2 ^ 0) [5]) [FifoOp.push 3]).2 =
      (fifo_run (2 ^ 8) (fifo_fresh (2 ^ 0) [5]) [FifoOp.push 3]).2.size :=
  ⟨Or.inl rfl, by decide, by decide,
    (fifo_used_free_invariant (2 ^ 8) 0 [5] [FifoOp.push 3]
      (Or.inl rfl) (by decide) (by decide)).2.2⟩

/-- C5: in every state reachable by checked pushes and pops from a freshly
initialized FIFO of capacity `2^k`: `fifo_is_empty` holds iff the used count
is zero iff the indices coincide; `fifo_is_full` holds iff the used count is
the capacity; and empty and full never hold together. -/
theorem fifo_empty_full_distinct (m k : Nat) (buf : List Nat) (ops : List FifoOp)
    (hm : m = 2 ^ 8 ∨ m = 2 ^ 16 ∨ m = 2 ^ 32) (hk : k ≤ 7)
    (hbuf : buf.length = 2 ^ k) :
    (fifo_is_empty (fifo_run m (fifo_fresh (2 ^ k) buf) ops).2 = true ↔
      fifo_get_used_size (fifo_run m (fifo_fresh (2 ^ k) buf) ops).2 = 0) ∧
    (fifo_is_empty (fifo_run m (fifo_fresh (2 ^ k) buf) ops).2 = true ↔
      (fifo_run m (fifo_fresh (2 ^ k) buf) ops).2.read_index =
        (fifo_run m (fifo_fresh (2 ^ k) buf) ops).2.write_index) ∧
    (fifo_is_full (fifo_run m (fifo_fresh (2 ^ k) buf) ops).2 = true ↔
      fifo_get_used_size (fifo_run m (fifo_fresh (2 ^ k) buf) ops).2 =
        (fifo_run m (fifo_fresh (2 ^ k) buf) ops).2.size) ∧
    ¬(fifo_is_empty (fifo_run m (fifo_fresh (2 ^ k) buf) ops).2 = true ∧
      fifo_is_full (fifo_run m (fifo_fresh (2 ^ k) buf) ops).2 = true) := by
  obtain ⟨hinv0, helems0⟩ := fifo_fresh_inv k buf hk hbuf
  have hinv := (fifo_run_sim m k (fifo_fresh (2 ^ k) buf) ops hinv0).2.1
  obtain ⟨hk2, hsize2, hmask2, hlen2, hr2, hw2, hu2⟩ := hinv
  have hNpos : 0 < (fifo_run m (fifo_fresh (2 ^ k) buf) ops).2.size := by
    rw [hsize2]
    exact Nat.pow_pos (by norm_num)
  have hEiff := fifo_empty_iff_used_zero k _ hk2 hsize2 hmask2 hr2 hw2
  have hFiff : fifo_is_full (fifo_run m (fifo_fresh (2 ^ k) buf) ops).2 = true ↔
      fifo_get_used_size (fifo_run m (fifo_fresh (2 ^ k) buf) ops).2 =
        (fifo_run m (fifo_fresh (2 ^ k) buf) ops).2.size := by
    rw [fifo_is_full, beq_iff_eq]
  refine ⟨hEiff, ?_, hFiff, ?_⟩
  · rw [fifo_is_empty, beq_iff_eq]
    exact eq_comm
  · rintro ⟨he, hf⟩
    have h1 := hEiff.1 he
    have h2 := hFiff.1 hf
    omega

/-- Witness for C5: width 8, capacity 2, one push. -/
theorem fifo_empty_full_distinct_witness :
    ((2 : Nat) ^ 8 = 2 ^ 8 ∨ (2 : Nat) ^ 8 = 2 ^ 16 ∨ (2 : Nat) ^ 8 = 2 ^ 32) ∧
    1 ≤ 7 ∧ ([0, 0] : List Nat).length = 2 ^ 1 ∧
    ¬(fifo_is_empty (fifo_run (2 ^ 8) (fifo_fresh (2 ^ 1) [0, 0]) [FifoOp.push 4]).2 = true ∧
      fifo_is_full (fifo_run (2 ^ 8) (fifo_fresh (2 ^ 1) [0, 0]) [FifoOp.push 4]).2 = true) :=
  ⟨Or.inl rfl, by decide, by decide,
    (fifo_empty_full_distinct (2 ^ 8) 1 [0, 0] [FifoOp.push 4]
      (Or.inl rfl) (by decide) (by decide)).2.2.2⟩

/-- C4: checked operations are atomic with respect to errors.  A checked push
on a full FIFO returns `FIFO_ERROR_OVERFLOW` leaving the whole descriptor
(indices and storage) unchanged; a checked pop on an empty FIFO returns
`FIFO_ERROR_UNDERFLOW` leaving descriptor and out-parameter unchanged; on
success the push performs exactly one slot write and one `write_index`
advance, and the pop one slot read and one `read_index` advance. -/
theorem fifo_checked_atomicity (k : Nat) (f : fifo_desc) (v cell : Nat)
    (hinv : fifo_inv k f) :
    (fifo_is_full f = true →
      fifo_push_uint8 f v = (FIFO_ERROR_OVERFLOW, f) ∧
      fifo_push_uint16 f v = (FIFO_ERROR_OVERFLOW, f) ∧
      fifo_push_uint32 f v = (FIFO_ERROR_OVERFLOW, f)) ∧
    (fifo_is_empty f = true →
      fifo_pull_uint8 f cell = (FIFO_ERROR_UNDERFLOW, cell, f) ∧
      fifo_pull_uint16 f cell = (FIFO_ERROR_UNDERFLOW, cell, f) ∧
      fifo_pull_uint32 f cell = (FIFO_ERROR_UNDERFLOW, cell, f)) ∧
    (fifo_is_full f = false →
      fifo_push_uint8 f v = (FIFO_OK, { f with
        buffer := f.buffer.set (f.write_index % f.size) (v % 2 ^ 8),
        write_index := (f.write_index + 1) % (2 * f.size) }) ∧
      fifo_push_uint16 f v = (FIFO_OK, { f with
        buffer := f.buffer.set (f.write_index % f.size) (v % 2 ^ 16),
        write_index := (f.write_index + 1) % (2 * f.size) }) ∧
      fifo_push_uint32 f v = (FIFO_OK, { f with
        buffer := f.buffer.set (f.write_index % f.size) (v % 2 ^ 32),
        write_index := (f.write_index + 1) % (2 * f.size) })) ∧
    (fifo_is_empty f = false →
      fifo_pull_uint8 f cell = (FIFO_OK, f.buffer.getD (f.read_index % f.size) 0,
        { f with read_index := (f.read_index + 1) % (2 * f.size) }) ∧
      fifo_pull_uint16 f cell = (FIFO_OK, f.buffer.getD (f.read_index % f.size) 0,
        { f with read_index := (f.read_index + 1) % (2 * f.size) }) ∧
      fifo_pull_uint32 f cell = (FIFO_OK, f.buffer.getD (f.read_index % f.size) 0,
        { f with read_index := (f.read_index + 1) % (2 * f.size) })) := by
  obtain ⟨hk, hsize, hmask, hlen, hr, hw, hu⟩ := hinv
  refine ⟨?_, ?_, ?_, ?_⟩
  · intro h
    exact ⟨fifo_push_w_full (2 ^ 8) f v h, fifo_push_w_full (2 ^ 16) f v h,
      fifo_push_w_full (2 ^ 32) f v h⟩
  · intro h
    exact ⟨fifo_pull_w_empty f cell h, fifo_pull_w_empty f cell h,
      fifo_pull_w_empty f cell h⟩
  · intro h
    exact ⟨fifo_push_w_not_full (2 ^ 8) k f v hsize hmask h,
      fifo_push_w_not_full (2 ^ 16) k f v hsize hmask h,
      fifo_push_w_not_full (2 ^ 32) k f v hsize hmask h⟩
  · intro h
    exact ⟨fifo_pull_w_not_empty k f cell hsize hmask h,
      fifo_pull_w_not_empty k f cell hsize hmask h,
      fifo_pull_w_not_empty k f cell hsize hmask h⟩

/-- Witness for C4: a full capacity-1 FIFO rejects a push unchanged, an empty
one rejects a pop leaving the out-parameter cell untouched. -/
theorem fifo_checked_atomicity_witness :
    fifo_inv 0 (⟨[5], 0, 1, 1, 1⟩ : fifo_desc) ∧
    fifo_is_full (⟨[5], 0, 1, 1, 1⟩ : fifo_desc) = true ∧
    fifo_push_uint8 (⟨[5], 0, 1, 1, 1⟩ : fifo_desc) 9 =
      (FIFO_ERROR_OVERFLOW, (⟨[5], 0, 1, 1, 1⟩ : fifo_desc)) ∧
    fifo_inv 0 (⟨[5], 0, 0, 1, 1⟩ : fifo_desc) ∧
    fifo_is_empty (⟨[5], 0, 0, 1, 1⟩ : fifo_desc) = true ∧
    fifo_pull_uint8 (⟨[5], 0, 0, 1, 1⟩ : fifo_desc) 3 =
      (FIFO_ERROR_UNDERFLOW, 3, (⟨[5], 0, 0, 1, 1⟩ : fifo_desc)) :=
  ⟨by decide, by decide,
    ((fifo_checked_atomicity 0 (⟨[5], 0, 1, 1, 1⟩ : fifo_desc) 9 3 (by decide)).1
      (by decide)).1,
    by decide, by decide,
    ((fifo_checked_atomicity 0 (⟨[5], 0, 0, 1, 1⟩ : fifo_desc) 9 3 (by decide)).2.1
      (by decide)).1⟩

/-- C6: `fifo_init` succeeds with `FIFO_OK` exactly on the power-of-two
capacities `{1, 2, 4, ..., 128}`, setting `read_index = write_index = 0`,
recording the capacity and `mask = 2 * capacity - 1`; on every other size
(0, non-powers-of-two, values above 128) it fails with `FIFO_ERROR` and
produces no descriptor. -/
theorem fifo_init_capacity_check (buf : List Nat) (size : Nat) :
    ((∃ j < 8, size = 2 ^ j) →
      fifo_init buf size = (FIFO_OK, some ⟨buf, 0, 0, size, 2 * size - 1⟩)) ∧
    (¬(∃ j < 8, size = 2 ^ j) →
      fifo_init buf size = (FIFO_ERROR, none)) := by
  constructor
  · intro h
    unfold fifo_init
    rw [if_pos ((pow2_cond_iff size).2 h)]
  · intro h
    unfold fifo_init
    rw [if_neg (fun hc => h ((pow2_cond_iff size).1 hc))]

/-- Witness for C6: size 4 succeeds with mask 7, size 5 fails. -/
theorem fifo_init_capacity_check_witness :
    (∃ j < 8, (4 : Nat) = 2 ^ j) ∧ ¬(∃ j < 8, (5 : Nat) = 2 ^ j) ∧
    fifo_init [0, 0, 0, 0] 4 = (FIFO_OK, some ⟨[0, 0, 0, 0], 0, 0, 4, 7⟩) ∧
    fifo_init [] 5 = (FIFO_ERROR, none) :=
  ⟨by decide, by decide,
    (fifo_init_capacity_check [0, 0, 0, 0] 4).1 (by decide),
    (fifo_init_capacity_check [] 5).2 (by decide)⟩

/-- C7: on a non-full FIFO, the checked push and the unchecked push of the
same item produce identical states (for each element width), the checked one
additionally returning `FIFO_OK`; symmetrically, on a non-empty FIFO, the
checked pop returns the same element and state as the unchecked pop. -/
theorem fifo_checked_matches_nocheck (f : fifo_desc) (v cell : Nat) :
    (fifo_is_full f = false →
      fifo_push_uint8 f v = (FIFO_OK, fifo_push_uint8_nocheck f v) ∧
      fifo_push_uint16 f v = (FIFO_OK, fifo_push_uint16_nocheck f v) ∧
      fifo_push_uint32 f v = (FIFO_OK, fifo_push_uint32_nocheck f v)) ∧
    (fifo_is_empty f = false →
      fifo_pull_uint8 f cell =
        (FIFO_OK, (fifo_pull_uint8_nocheck f).1, (fifo_pull_uint8_nocheck f).2) ∧
      fifo_pull_uint16 f cell =
        (FIFO_OK, (fifo_pull_uint16_nocheck f).1, (fifo_pull_uint16_nocheck f).2) ∧
      fifo_pull_uint32 f cell =
        (FIFO_OK, (fifo_pull_uint32_nocheck f).1, (fifo_pull_uint32_nocheck f).2)) := by
  constructor
  · intro h
    exact ⟨push_w_eq_nocheck (2 ^ 8) f v h, push_w_eq_nocheck (2 ^ 16) f v h,
      push_w_eq_nocheck (2 ^ 32) f v h⟩
  · intro h
    exact ⟨pull_w_eq_nocheck f cell h, pull_w_eq_nocheck f cell h,
      pull_w_eq_nocheck f cell h⟩

/-- Witness for C7: a half-full capacity-2 FIFO (one element queued). -/
theorem fifo_checked_matches_nocheck_witness :
    fifo_is_full (⟨[7, 0], 0, 1, 2, 3⟩ : fifo_desc) = false ∧
    fifo_is_empty (⟨[7, 0], 0, 1, 2, 3⟩ : fifo_desc) = false ∧
    fifo_push_uint8 (⟨[7, 0], 0, 1, 2, 3⟩ : fifo_desc) 5 =
      (FIFO_OK, fifo_push_uint8_nocheck (⟨[7, 0], 0, 1, 2, 3⟩ : fifo_desc) 5) ∧
    fifo_pull_uint8 (⟨[7, 0], 0, 1, 2, 3⟩ : fifo_desc) 0 =
      (FIFO_OK, (fifo_pull_uint8_nocheck (⟨[7, 0], 0, 1, 2, 3⟩ : fifo_desc)).1,
        (fifo_pull_uint8_nocheck (⟨[7, 0], 0, 1, 2, 3⟩ : fifo_desc)).2) :=
  ⟨by decide, by decide,
    ((fifo_checked_matches_nocheck (⟨[7, 0], 0, 1, 2, 3⟩ : fifo_desc) 5 0).1
      (by decide)).1,
    ((fifo_checked_matches_nocheck (⟨[7, 0], 0, 1, 2, 3⟩ : fifo_desc) 5 0).2
      (by decide)).1⟩

/-- C8: after `fifo_flush`, whatever the prior state, the FIFO is empty:
`fifo_is_empty` is true, the used count is zero, and both indices are 0. -/
theorem fifo_flush_resets (f : fifo_desc) :
    fifo_is_empty (fifo_flush f) = true ∧
    fifo_get_used_size (fifo_flush f) = 0 ∧
    (fifo_flush f).read_index = 0 ∧ (fifo_flush f).write_index = 0 := by
  refine ⟨rfl, ?_, rfl, rfl⟩
  simp [fifo_get_used_size, fifo_flush]

/-- C10: a checked pull on an empty FIFO returns `FIFO_ERROR_UNDERFLOW` and
does not write through the out-parameter: the modelled pointee cell keeps its
prior value, for all three element widths. -/
theorem fifo_pull_empty_no_write (f : fifo_desc) (cell8 cell16 cell32 : Nat)
    (h : fifo_is_empty f = true) :
    fifo_pull_uint8 f cell8 = (FIFO_ERROR_UNDERFLOW, cell8, f) ∧
    fifo_pull_uint16 f cell16 = (FIFO_ERROR_UNDERFLOW, cell16, f) ∧
    fifo_pull_uint32 f cell32 = (FIFO_ERROR_UNDERFLOW, cell32, f) :=
  ⟨fifo_pull_w_empty f cell8 h, fifo_pull_w_empty f cell16 h,
    fifo_pull_w_empty f cell32 h⟩

/-- Witness for C10: an empty capacity-4 FIFO leaves the cell value 77 in
place. -/
theorem fifo_pull_empty_no_write_witness :
    fifo_is_empty (fifo_fresh 4 [0, 0, 0, 0]) = true ∧
    fifo_pull_uint8 (fifo_fresh 4 [0, 0, 0, 0]) 77 =
      (FIFO_ERROR_UNDERFLOW, 77, fifo_fresh 4 [0, 0, 0, 0]) :=
  ⟨by decide,
    (fifo_pull_empty_no_write (fifo_fresh 4 [0, 0, 0, 0]) 77 1 2 (by decide)).1⟩

end HarpX
